import Mathlib

/-!
Verification of the chart response normalizer of the vedic-chart backend
(`pyfastapi/main.py`, `pyfastapi/helpers.py`).

Python strings are modelled as `List Char`; Python dicts as association
lists (`List (PyStr × α)`) with Python's update-in-place / append-on-new-key
insertion semantics (`pyDictInsert`); exceptions as `Except Unit`.
-/

/-- Python strings, modelled as lists of unicode code points. -/
abbrev PyStr := List Char

/-- The code points Python's `str.isspace` (and hence the no-argument
`str.strip`) treats as whitespace. -/
def pyIsSpace (c : Char) : Bool :=
  decide (9 ≤ c.toNat ∧ c.toNat ≤ 13) ||
  decide (28 ≤ c.toNat ∧ c.toNat ≤ 32) ||
  decide (c.toNat = 0x85) || decide (c.toNat = 0xA0) ||
  decide (c.toNat = 0x1680) ||
  decide (0x2000 ≤ c.toNat ∧ c.toNat ≤ 0x200A) ||
  decide (c.toNat = 0x2028) || decide (c.toNat = 0x2029) ||
  decide (c.toNat = 0x202F) || decide (c.toNat = 0x205F) ||
  decide (c.toNat = 0x3000)

/-- Python `s.strip()`: remove leading and trailing whitespace. -/
def pyStrip (s : PyStr) : PyStr :=
  (s.dropWhile pyIsSpace).rdropWhile pyIsSpace

/-- `ChartCleaner.clean_text` (main.py lines 95-100, helpers.py lines 7-9):
`re.sub(r"[^\x00-\x7F]+", "", text).replace("\n", " ").strip()`.
Removing every maximal run of non-ASCII characters is the same as removing
each non-ASCII character. -/
def clean_text (s : PyStr) : PyStr :=
  pyStrip (((s.filter fun c => decide (c.toNat ≤ 0x7F)).map
    fun c => if c = '\n' then ' ' else c))

theorem head?_dropWhile_all {α : Type} (p : α → Bool) (l : List α) :
    ((l.dropWhile p).head?.all fun c => !p c) = true := by
  induction l with
  | nil => rfl
  | cons a t ih =>
    rw [List.dropWhile_cons]
    cases h : p a
    · simp [h]
    · simpa [h] using ih

theorem pyStrip_head_all (l : PyStr) :
    ((pyStrip l).head?.all fun c => !pyIsSpace c) = true := by
  show ((((l.dropWhile pyIsSpace).rdropWhile pyIsSpace)).head?.all
    fun c => !pyIsSpace c) = true
  cases h : ((l.dropWhile pyIsSpace).rdropWhile pyIsSpace) with
  | nil => rfl
  | cons a t =>
    have hpre : (l.dropWhile pyIsSpace).rdropWhile pyIsSpace <+:
        l.dropWhile pyIsSpace := List.rdropWhile_prefix _ _
    rw [h] at hpre
    obtain ⟨r, hr⟩ := hpre
    have hd : l.dropWhile pyIsSpace = a :: (t ++ r) := by
      rw [← hr]; simp
    have := head?_dropWhile_all pyIsSpace l
    rw [hd] at this
    simpa using this

theorem pyStrip_last_all (l : PyStr) :
    ((pyStrip l).getLast?.all fun c => !pyIsSpace c) = true := by
  show ((((l.dropWhile pyIsSpace).rdropWhile pyIsSpace)).getLast?.all
    fun c => !pyIsSpace c) = true
  by_cases hne : (l.dropWhile pyIsSpace).rdropWhile pyIsSpace = []
  · rw [hne]; rfl
  · have hlast := List.rdropWhile_last_not pyIsSpace (l.dropWhile pyIsSpace) hne
    rw [List.getLast?_eq_getLast _ hne]
    simpa using hlast

theorem pyStrip_idem (l : PyStr) : pyStrip (pyStrip l) = pyStrip l := by
  have h1 : (pyStrip l).dropWhile pyIsSpace = pyStrip l := by
    cases h : pyStrip l with
    | nil => simp
    | cons a t =>
      have := pyStrip_head_all l
      rw [h] at this
      simp only [List.head?_cons, Option.all_some, Bool.not_eq_true'] at this
      simp [List.dropWhile, this]
  show ((pyStrip l).dropWhile pyIsSpace).rdropWhile pyIsSpace = pyStrip l
  rw [h1]
  unfold pyStrip
  exact List.rdropWhile_idempotent _ _

theorem mem_pyStrip {c : Char} {l : PyStr} (h : c ∈ pyStrip l) : c ∈ l := by
  have h1 : pyStrip l <+: l.dropWhile pyIsSpace := List.rdropWhile_prefix _ _
  have h2 : l.dropWhile pyIsSpace <:+ l := List.dropWhile_suffix _
  exact h2.sublist.mem (h1.sublist.mem h)

theorem mem_clean_text {c : Char} {s : PyStr} (h : c ∈ clean_text s) :
    c.toNat ≤ 0x7F ∧ c ≠ '\n' := by
  have h1 : c ∈ ((s.filter fun c => decide (c.toNat ≤ 0x7F)).map
      fun c => if c = '\n' then ' ' else c) := mem_pyStrip h
  obtain ⟨c', hc', hmap⟩ := List.mem_map.mp h1
  have hascii : c'.toNat ≤ 0x7F := by
    have := (List.mem_filter.mp hc').2
    simpa using this
  by_cases hnl : c' = '\n'
  · subst hnl
    simp only [if_pos rfl] at hmap
    subst hmap
    exact ⟨by decide, by decide⟩
  · rw [if_neg hnl] at hmap
    subst hmap
    exact ⟨hascii, hnl⟩

/-- C1: `clean_text` always returns a string that is pure 7-bit ASCII,
contains no newline character, and starts and ends with a non-whitespace
character (it is trimmed). -/
theorem clean_text_clean (s : PyStr) :
    ((clean_text s).all fun c => decide (c.toNat ≤ 0x7F) && (c != '\n')) = true ∧
    ((clean_text s).head?.all fun c => !pyIsSpace c) = true ∧
    ((clean_text s).getLast?.all fun c => !pyIsSpace c) = true := by
  refine ⟨?_, pyStrip_head_all _, pyStrip_last_all _⟩
  rw [List.all_eq_true]
  intro c hc
  obtain ⟨h1, h2⟩ := mem_clean_text hc
  simp [h1, h2]

/-- C8: `clean_text` is idempotent. -/
theorem clean_text_idem (s : PyStr) :
    clean_text (clean_text s) = clean_text s := by
  have hfilter : (clean_text s).filter (fun c => decide (c.toNat ≤ 0x7F)) =
      clean_text s := by
    rw [List.filter_eq_self]
    intro c hc
    simpa using (mem_clean_text hc).1
  have hmap : (clean_text s).map (fun c => if c = '\n' then ' ' else c) =
      clean_text s := by
    conv_rhs => rw [← List.map_id (clean_text s)]
    apply List.map_congr_left
    intro c hc
    simp [if_neg (mem_clean_text hc).2]
  show pyStrip (((clean_text s).filter fun c => decide (c.toNat ≤ 0x7F)).map
    fun c => if c = '\n' then ' ' else c) = clean_text s
  rw [hfilter, hmap]
  exact pyStrip_idem _

/-- Python's `s.split('\n')`: split on every newline, keeping empty pieces;
the result is always nonempty. -/
def splitNl (s : PyStr) : List PyStr :=
  match s with
  | [] => [[]]
  | c :: rest =>
    if c = '\n' then [] :: splitNl rest
    else
      match splitNl rest with
      | [] => [[c]]
      | t :: ts => (c :: t) :: ts

/-- One house entry of a chart table (main.py lines 115-120):
`[clean_text(p) for p in house.split("\n") if p.strip()]`. -/
def cleanHouse (house : PyStr) : List PyStr :=
  ((splitNl house).filter fun p => decide (pyStrip p ≠ [])).map clean_text

/-- A Python `dict` is modelled as an association list in insertion order;
`d[k] = v` updates the value in place when the key is present and appends
a new entry otherwise. -/
def pyDictInsert {α : Type} (d : List (PyStr × α)) (k : PyStr) (v : α) :
    List (PyStr × α) :=
  if d.any (fun p => decide (p.1 = k)) then
    d.map fun p => if p.1 = k then (k, v) else p
  else d ++ [(k, v)]

/-- Python `d[k]` / `d.get(k)`: the value at the first entry whose key is
`k`, if any. -/
def pyLookup {α : Type} (d : List (PyStr × α)) (k : PyStr) : Option α :=
  match d with
  | [] => none
  | p :: rest => if p.1 = k then some p.2 else pyLookup rest k

theorem pyLookup_map_update_ne {α : Type} (d : List (PyStr × α)) (k : PyStr)
    (v : α) (k' : PyStr) (hkk : k ≠ k') :
    pyLookup (d.map fun p => if p.1 = k then (k, v) else p) k' =
      pyLookup d k' := by
  induction d with
  | nil => rfl
  | cons a t ih =>
    simp only [List.map_cons, pyLookup]
    by_cases hak : a.1 = k
    · rw [if_pos hak]
      simp only [pyLookup]
      rw [if_neg (show ¬(k, v).1 = k' from hkk),
        if_neg (show ¬a.1 = k' from fun h => hkk (hak.symm.trans h)), ih]
    · rw [if_neg hak]
      by_cases hak' : a.1 = k' <;> simp [hak', ih]

theorem pyLookup_map_update_eq {α : Type} (d : List (PyStr × α)) (k : PyStr)
    (v : α) (hany : (d.any fun p => decide (p.1 = k)) = true) :
    pyLookup (d.map fun p => if p.1 = k then (k, v) else p) k = some v := by
  induction d with
  | nil => cases hany
  | cons a t ih =>
    simp only [List.map_cons]
    by_cases hak : a.1 = k
    · rw [if_pos hak]
      simp [pyLookup]
    · rw [if_neg hak]
      simp only [pyLookup]
      rw [if_neg hak]
      apply ih
      rw [List.any_cons] at hany
      have hd : decide (a.1 = k) = false := by simp [hak]
      rwa [hd, Bool.false_or] at hany

theorem pyLookup_append_single {α : Type} (d : List (PyStr × α)) (k : PyStr)
    (v : α) (k' : PyStr) (h : ∀ p ∈ d, p.1 ≠ k) :
    pyLookup (d ++ [(k, v)]) k' =
      if k = k' then some v else pyLookup d k' := by
  induction d with
  | nil =>
    simp only [List.nil_append, pyLookup]
  | cons a t ih =>
    simp only [List.cons_append, pyLookup]
    by_cases hak' : a.1 = k'
    · rw [if_pos hak', if_pos hak']
      rw [if_neg (fun hkk : k = k' =>
        h a (List.mem_cons_self a t) (hak'.trans hkk.symm))]
    · rw [if_neg hak', if_neg hak']
      exact ih (fun p hp => h p (List.mem_cons_of_mem a hp))

theorem pyLookup_pyDictInsert {α : Type} (d : List (PyStr × α)) (k : PyStr)
    (v : α) (k' : PyStr) :
    pyLookup (pyDictInsert d k v) k' =
      if k = k' then some v else pyLookup d k' := by
  unfold pyDictInsert
  by_cases hany : (d.any fun p => decide (p.1 = k)) = true
  · rw [if_pos hany]
    by_cases hkk : k = k'
    · subst hkk
      rw [if_pos rfl]
      exact pyLookup_map_update_eq d k v hany
    · rw [if_neg hkk]
      exact pyLookup_map_update_ne d k v k' hkk
  · rw [if_neg hany]
    apply pyLookup_append_single
    intro p hp hpk
    exact hany (List.any_eq_true.mpr ⟨p, hp, by simp [hpk]⟩)

theorem keys_pyDictInsert_of_mem {α : Type} (d : List (PyStr × α))
    (k : PyStr) (v : α) (h : k ∈ d.map Prod.fst) :
    (pyDictInsert d k v).map Prod.fst = d.map Prod.fst := by
  have hany : d.any (fun p => decide (p.1 = k)) = true := by
    obtain ⟨p, hp, hpk⟩ := List.mem_map.mp h
    exact List.any_eq_true.mpr ⟨p, hp, by simp [hpk]⟩
  unfold pyDictInsert
  rw [if_pos hany, List.map_map]
  apply List.map_congr_left
  intro p _
  by_cases hpk : p.1 = k
  · simp [hpk]
  · simp [hpk]

theorem pyDictInsert_of_not_mem {α : Type} (d : List (PyStr × α))
    (k : PyStr) (v : α) (h : ∀ p ∈ d, p.1 ≠ k) :
    pyDictInsert d k v = d ++ [(k, v)] := by
  unfold pyDictInsert
  rw [if_neg]
  intro hany
  obtain ⟨p, hp, hpk⟩ := List.any_eq_true.mp hany
  exact h p hp (by simpa using hpk)

/-- The placements normalization of `ChartCleaner.format_response`
(main.py lines 104-107): a dict comprehension cleaning every key and
value, which in Python inserts the cleaned pairs one by one in iteration
order. -/
def normalizePlacements (raw : List (PyStr × PyStr)) : List (PyStr × PyStr) :=
  raw.foldl (fun d kv => pyDictInsert d (clean_text kv.1) (clean_text kv.2)) []

/-- C9: the normalized placements map each key `k` to the cleaned value of
the last raw entry whose cleaned key is `k` (last-write-wins on
collisions); keys and values are always passed through `clean_text`. -/
theorem normalizePlacements_lookup (raw : List (PyStr × PyStr)) (k : PyStr) :
    pyLookup (normalizePlacements raw) k =
      ((raw.filter fun kv => decide (clean_text kv.1 = k)).getLast?).map
        (fun kv => clean_text kv.2) := by
  induction raw using List.reverseRecOn with
  | nil => rfl
  | append_singleton l a ih =>
    unfold normalizePlacements at *
    rw [List.foldl_append]
    simp only [List.foldl_cons, List.foldl_nil]
    rw [pyLookup_pyDictInsert, List.filter_append]
    by_cases hP : clean_text a.1 = k
    · rw [if_pos hP]
      have h1 : List.filter (fun kv => decide (clean_text kv.1 = k)) [a] =
          [a] := by simp [hP]
      rw [h1, List.getLast?_concat]
      rfl
    · rw [if_neg hP]
      have h1 : List.filter (fun kv => decide (clean_text kv.1 = k)) [a] =
          [] := by simp [hP]
      rw [h1, List.append_nil, ih]

/-- The chart label `f"D{factor}"`. -/
def chartLabel (factor : Nat) : PyStr :=
  'D' :: Nat.toDigits 10 factor

/-- The labels derived from the external factor list
(`const.division_chart_factors`), in order. -/
def chartLabels (factors : List Nat) : List PyStr :=
  factors.map chartLabel

/-- The reshaping of one chart table: every house string is split,
filtered and cleaned (main.py lines 115-122). -/
def chartTableClean (table : List PyStr) : List (List PyStr) :=
  table.map cleanHouse

/-- The chart loop of `format_response` (main.py lines 112-122): iterate
over labels, break as soon as the index reaches the end of the chart
list, and insert the reshaped table under the label. -/
def formatChartsLoop : List PyStr → List (List PyStr) →
    List (PyStr × List (List PyStr)) → List (PyStr × List (List PyStr))
  | [], _, acc => acc
  | _ :: _, [], acc => acc
  | name :: names, table :: rest, acc =>
    formatChartsLoop names rest (pyDictInsert acc name (chartTableClean table))

/-- The `charts` field built by `format_response`. -/
def formatCharts (factors : List Nat) (charts : List (List PyStr)) :
    List (PyStr × List (List PyStr)) :=
  formatChartsLoop (chartLabels factors) charts []

theorem formatChartsLoop_eq_append (labels : List PyStr) :
    ∀ (charts : List (List PyStr)) (acc : List (PyStr × List (List PyStr))),
      labels.Nodup → (∀ p ∈ acc, p.1 ∉ labels) →
      formatChartsLoop labels charts acc =
        acc ++ labels.zip (charts.map chartTableClean) := by
  induction labels with
  | nil =>
    intro charts acc _ _
    cases charts <;> simp [formatChartsLoop]
  | cons name names ih =>
    intro charts acc hnd hacc
    cases charts with
    | nil => simp [formatChartsLoop]
    | cons table rest =>
      show formatChartsLoop names rest
        (pyDictInsert acc name (chartTableClean table)) = _
      rw [pyDictInsert_of_not_mem _ _ _
        (fun p hp h => hacc p hp (by rw [h]; exact List.mem_cons_self _ _))]
      rw [ih rest (acc ++ [(name, chartTableClean table)])
        (List.nodup_cons.mp hnd).2 ?_]
      · simp
      · intro p hp
        rcases List.mem_append.mp hp with h | h
        · exact fun hm => hacc p h (List.mem_cons_of_mem _ hm)
        · have : p = (name, chartTableClean table) := by simpa using h
          rw [this]
          exact (List.nodup_cons.mp hnd).1

theorem map_fst_zip_eq_take {α β : Type} (l₁ : List α) (l₂ : List β) :
    (l₁.zip l₂).map Prod.fst = l₁.take l₂.length := by
  induction l₁ generalizing l₂ with
  | nil => simp
  | cons a t ih =>
    cases l₂ with
    | nil => simp
    | cons b u => simp [ih]

/-- C2 (amended): when the derived chart labels are pairwise distinct (as
they are for the actual factor list, whose factors are distinct), the
charts mapping is exactly the position-wise zip of the labels with the
reshaped chart tables: it has `min (number of labels) (number of tables)`
entries, its insertion order follows the chart-table order, and the i-th
label maps to the reshaped i-th table. -/
theorem formatCharts_spec (factors : List Nat) (charts : List (List PyStr))
    (hnd : (chartLabels factors).Nodup) :
    formatCharts factors charts =
      (chartLabels factors).zip (charts.map chartTableClean) ∧
    (formatCharts factors charts).length =
      min factors.length charts.length ∧
    (formatCharts factors charts).map Prod.fst =
      (chartLabels factors).take charts.length := by
  have h0 := formatChartsLoop_eq_append (chartLabels factors) charts [] hnd
    (by simp)
  rw [List.nil_append] at h0
  have h : formatCharts factors charts =
      (chartLabels factors).zip (charts.map chartTableClean) := h0
  refine ⟨h, ?_, ?_⟩
  · rw [h, List.length_zip, List.length_map]
    simp [chartLabels]
  · rw [h, map_fst_zip_eq_take, List.length_map]

theorem formatCharts_spec_witness :
    formatCharts [1, 9] [[]] =
      (chartLabels [1, 9]).zip (([[]] : List (List PyStr)).map chartTableClean) ∧
    (formatCharts [1, 9] [[]]).length =
      min ([1, 9] : List Nat).length ([[]] : List (List PyStr)).length ∧
    (formatCharts [1, 9] [[]]).map Prod.fst =
      (chartLabels [1, 9]).take ([[]] : List (List PyStr)).length :=
  formatCharts_spec [1, 9] [[]] (by decide)

/-- C2 is false as literally stated for every factor list: with the
duplicate-factor list `[1, 1, 2]` and two chart tables (fewer tables than
labels), the two equal labels `"D1"` collide in the dict, so the mapping
has 1 entry rather than one entry per chart table. -/
theorem formatCharts_counterexample :
    ([[], []] : List (List PyStr)).length < (chartLabels [1, 1, 2]).length ∧
    (formatCharts [1, 1, 2] [[], []]).length ≠
      ([[], []] : List (List PyStr)).length := by decide

/-- C3 (amended): the loop keeps exactly the fragments that are non-blank
before sanitization (Python's `if p.strip()`), and maps each kept fragment
through `clean_text`; every kept fragment is therefore pure ASCII and
newline-free, and a house string whose lines are all blank yields an empty
list.  A kept fragment may still be the empty string when it consisted
only of non-ASCII, non-whitespace characters. -/
theorem cleanHouse_spec (house : PyStr) :
    ((cleanHouse house).all fun q =>
      q.all fun c => decide (c.toNat ≤ 0x7F) && (c != '\n')) = true ∧
    (∀ q ∈ cleanHouse house,
      ∃ p ∈ splitNl house, pyStrip p ≠ [] ∧ q = clean_text p) ∧
    (((splitNl house).all fun p => decide (pyStrip p = [])) = true →
      cleanHouse house = []) := by
  refine ⟨?_, ?_, ?_⟩
  · rw [List.all_eq_true]
    intro q hq
    obtain ⟨p, _, rfl⟩ := List.mem_map.mp hq
    exact (clean_text_clean p).1
  · intro q hq
    obtain ⟨p, hp, rfl⟩ := List.mem_map.mp hq
    obtain ⟨hmem, hkeep⟩ := List.mem_filter.mp hp
    exact ⟨p, hmem, of_decide_eq_true hkeep, rfl⟩
  · intro hall
    rw [List.all_eq_true] at hall
    unfold cleanHouse
    rw [List.filter_eq_nil_iff.mpr, List.map_nil]
    intro p hp
    simp [of_decide_eq_true (hall p hp)]

theorem cleanHouse_spec_witness : cleanHouse [' ', '\n', '\t'] = [] :=
  (cleanHouse_spec [' ', '\n', '\t']).2.2 (by decide)

/-- C3 is false as literally stated: a house fragment consisting of a
single non-ASCII, non-whitespace character (here the Sun glyph U+2609)
passes Python's `p.strip()` filter but sanitizes to the empty string, so
the house lists in the charts mapping can contain empty strings. -/
theorem cleanHouse_counterexample :
    cleanHouse [Char.ofNat 0x2609] = [([] : PyStr)] ∧
    formatCharts [1] [List.replicate 12 [Char.ofNat 0x2609]] =
      [(['D', '1'], List.replicate 12 [([] : PyStr)])] := by decide

/-- A fully-formed nakshatra record (`NakshatraInfo` in main.py 155-158):
the code only ever builds it with all three fields at once. -/
structure NakshatraInfo where
  name : PyStr
  pada : Nat
  lord : PyStr
deriving DecidableEq

deriving instance DecidableEq for Except

/-- Modelled from the spec: the external astrology library's primitives
consumed by the enrichment step of `get_horoscope` (sidereal longitude per
body, nakshatra/pada from a longitude, ascendant data, and the name/lord
lookup tables), each of which may raise, modelled as `Except Unit`.
`nakshatra_pada` also returns a fraction in the source, which the code
discards, so it is omitted here. -/
structure Ephemeris where
  set_language : Except Unit Unit
  ascendant : Except Unit (Nat × Rat × Nat × Nat)
  house_owners : Nat → Except Unit Nat
  PLANET_NAMES : Nat → Except Unit PyStr
  NAKSHATRA_LIST : Nat → Except Unit PyStr
  nakshathra_lord : Nat → Except Unit Nat
  sidereal_longitude : Nat → Except Unit Rat
  nakshatra_pada : Rat → Except Unit (Nat × Nat)

/-- Modelled from the spec: the external library's planet index for the
Sun (`const._SUN`); only distinctness of the nine indices and the
Rahu/Ketu pairing matter to the code under verification. -/
def SUN : Nat := 0

def MOON : Nat := 1

def MARS : Nat := 2

def MERCURY : Nat := 3

def JUPITER : Nat := 4

def VENUS : Nat := 5

def SATURN : Nat := 6

def RAHU : Nat := 7

def KETU : Nat := 8

/-- Modelled from the spec: `drik.planet_list`, the nine tracked classical
bodies iterated by the enrichment loop (main.py line 302). -/
def planet_list : List Nat :=
  [SUN, MOON, MARS, MERCURY, JUPITER, VENUS, SATURN, RAHU, KETU]

/-- `graha_labels` (main.py lines 247-257). -/
def graha_labels : List (Nat × PyStr) :=
  [(SUN, "Sun".toList), (MOON, "Moon".toList), (MARS, "Mars".toList),
   (MERCURY, "Mercury".toList), (JUPITER, "Jupiter".toList),
   (VENUS, "Venus".toList), (SATURN, "Saturn".toList),
   (RAHU, "Rahu".toList), (KETU, "Ketu".toList)]

/-- `graha_labels.get(planet_id, str(planet_id))` (main.py line 303). -/
def grahaName (pid : Nat) : PyStr :=
  (List.lookup pid graha_labels).getD (Nat.toDigits 10 pid)

/-- `f"Raasi-{label}"`. -/
def raasiKey (name : PyStr) : PyStr :=
  "Raasi-".toList ++ name

/-- The dict key of a tracked body's nakshatra entry. -/
def planetKey (pid : Nat) : PyStr :=
  raasiKey (grahaName pid)

/-- The ascendant's dict key `"Raasi-Lagna"`. -/
def lagnaKey : PyStr :=
  "Raasi-Lagna".toList

/-- The initial `nakshatras` dict (main.py lines 258-262): one `None`
entry per tracked body, then a `None` entry for the ascendant. -/
def initNakshatras : List (PyStr × Option NakshatraInfo) :=
  pyDictInsert
    (graha_labels.foldl (fun d g => pyDictInsert d (raasiKey g.2) none) [])
    lagnaKey none

/-- Python's float modulo `x % 360.0` (main.py line 307), in exact
rational arithmetic: `x - 360 * floor (x / 360)`. -/
def pyMod360 (x : Rat) : Rat :=
  x - 360 * ((x / 360).floor : Rat)

/-- The longitude used for a body's nakshatra computation (main.py lines
305-309): Ketu never queries the ephemeris directly; its longitude is
derived from Rahu's. -/
def planetLongitude (E : Ephemeris) (pid : Nat) : Except Unit Rat :=
  if pid = KETU then
    match E.sidereal_longitude RAHU with
    | .error e => .error e
    | .ok rl => .ok (pyMod360 (rl + 180))
  else E.sidereal_longitude pid

/-- One body's nakshatra computation (main.py lines 304-322), up to the
record that is stored on success; any raise maps to `.error`. -/
def planetResult (E : Ephemeris) (pid : Nat) : Except Unit NakshatraInfo := do
  let longitude ← planetLongitude E pid
  let ip ← E.nakshatra_pada longitude
  let nn ← E.NAKSHATRA_LIST (ip.1 - 1)
  let nli ← E.nakshathra_lord ip.1
  let nln ← E.PLANET_NAMES nli
  pure ⟨clean_text nn, ip.2, clean_text nln⟩

/-- One iteration of the per-body loop with its `try/except`: on failure
the dict is left untouched (main.py lines 302-328). -/
def planetStep (E : Ephemeris) (st : List (PyStr × Option NakshatraInfo))
    (pid : Nat) : List (PyStr × Option NakshatraInfo) :=
  match planetResult E pid with
  | .error _ => st
  | .ok info => pyDictInsert st (planetKey pid) (some info)

/-- The ascendant computation up to and including the ascendant lord
(main.py lines 271-278); an exception anywhere here leaves all ascendant
fields unset. -/
def ascStage1 (E : Ephemeris) : Except Unit (PyStr × Nat × Nat) := do
  let a ← E.ascendant
  let li ← E.house_owners a.1
  let nm ← E.PLANET_NAMES li
  pure (clean_text nm, a.2.2.1, a.2.2.2)

/-- The rest of the ascendant computation (main.py lines 279-295),
executed after `ascendant_lord` has already been assigned. -/
def ascStage2 (E : Ephemeris) (idx pada : Nat) : Except Unit NakshatraInfo := do
  let nn ← E.NAKSHATRA_LIST (idx - 1)
  let nli ← E.nakshathra_lord idx
  let nln ← E.PLANET_NAMES nli
  pure ⟨clean_text nn, pada, clean_text nln⟩

/-- The enrichment fields of the response. -/
structure Enrichment where
  ascendant_lord : Option PyStr
  ascendant_nakshatra : Option NakshatraInfo
  nakshatras : List (PyStr × Option NakshatraInfo)
deriving DecidableEq

/-- The part of the ascendant block after `ascendant_lord` has been
assigned (main.py lines 279-295): on failure only the already-assigned
state is kept. -/
def ascendantStep2 (E : Ephemeris) (s1 : PyStr × Nat × Nat)
    (st1 : Enrichment) : Enrichment :=
  match ascStage2 E s1.2.1 s1.2.2 with
  | .error _ => st1
  | .ok info =>
    { st1 with
      ascendant_nakshatra := some info,
      nakshatras := pyDictInsert st1.nakshatras lagnaKey (some info) }

/-- The ascendant block with its `try/except` (main.py lines 270-300):
`ascendant_lord` is assigned before the nakshatra lookups, so a failure in
stage 2 leaves the lord set but both nakshatra entries unset. -/
def ascendantStep (E : Ephemeris) (st : Enrichment) : Enrichment :=
  match ascStage1 E with
  | .error _ => st
  | .ok s1 => ascendantStep2 E s1 { st with ascendant_lord := some s1.1 }

/-- The stage-2 part of the fully successful ascendant outcome. -/
def ascendantResult2 (E : Ephemeris) (s1 : PyStr × Nat × Nat) :
    Option (PyStr × NakshatraInfo) :=
  match ascStage2 E s1.2.1 s1.2.2 with
  | .error _ => none
  | .ok info => some (s1.1, info)

/-- The fully successful ascendant outcome: lord and nakshatra record. -/
def ascendantResult (E : Ephemeris) : Option (PyStr × NakshatraInfo) :=
  match ascStage1 E with
  | .error _ => none
  | .ok s1 => ascendantResult2 E s1

/-- The whole enrichment pass (main.py lines 245-333): initial `None`
entries, the outer context `try/except` (whose only fallible own step is
`utils.set_language`), the ascendant block, then the per-body loop. -/
def enrich (E : Ephemeris) : Enrichment :=
  let init : Enrichment := ⟨none, none, initNakshatras⟩
  match E.set_language with
  | .error _ => init
  | .ok _ =>
    let st1 := ascendantStep E init
    { st1 with nakshatras := planet_list.foldl (planetStep E) st1.nakshatras }

/-- The external library's raw output triple. -/
structure RawHoroscope where
  placements : List (PyStr × PyStr)
  charts : List (List PyStr)
  house_indices : List Int
deriving DecidableEq

/-- The base response built by `ChartCleaner.format_response`
(main.py lines 102-128). -/
structure FormattedBase where
  placements : List (PyStr × PyStr)
  charts : List (PyStr × List (List PyStr))
  house_indices : List Int
deriving DecidableEq

def format_response (factors : List Nat) (raw : RawHoroscope) :
    FormattedBase :=
  ⟨normalizePlacements raw.placements, formatCharts factors raw.charts,
   raw.house_indices⟩

/-- The `data` object of a successful response (`HoroscopeData`). -/
structure HoroscopeData where
  placements : List (PyStr × PyStr)
  charts : List (PyStr × List (List PyStr))
  house_indices : List Int
  ascendant_lord : Option PyStr
  ascendant_nakshatra : Option NakshatraInfo
  nakshatras : List (PyStr × Option NakshatraInfo)
deriving DecidableEq

structure HoroscopeResponse where
  status : PyStr
  data : HoroscopeData
deriving DecidableEq

/-- The success path of the `/horoscope` endpoint (main.py lines 224-335):
base formatting followed by best-effort enrichment; the enrichment is
total, so no enrichment failure can escape as an error. -/
def get_horoscope (factors : List Nat) (raw : RawHoroscope)
    (E : Ephemeris) : HoroscopeResponse :=
  ⟨"success".toList,
   ⟨(format_response factors raw).placements,
    (format_response factors raw).charts,
    (format_response factors raw).house_indices,
    (enrich E).ascendant_lord,
    (enrich E).ascendant_nakshatra,
    (enrich E).nakshatras⟩⟩

theorem foldl_planetStep_keys (E : Ephemeris) (pids : List Nat) :
    ∀ st : List (PyStr × Option NakshatraInfo),
      (∀ p ∈ pids, planetKey p ∈ st.map Prod.fst) →
      (pids.foldl (planetStep E) st).map Prod.fst = st.map Prod.fst := by
  induction pids with
  | nil => intro st _; rfl
  | cons q rest ih =>
    intro st h
    rw [List.foldl_cons]
    have hkeys : (planetStep E st q).map Prod.fst = st.map Prod.fst := by
      unfold planetStep
      cases planetResult E q with
      | error e => rfl
      | ok info =>
        exact keys_pyDictInsert_of_mem _ _ _ (h q (List.mem_cons_self _ _))
    have h' : ∀ p ∈ rest, planetKey p ∈ (planetStep E st q).map Prod.fst := by
      intro p hp
      rw [hkeys]
      exact h p (List.mem_cons_of_mem _ hp)
    rw [ih (planetStep E st q) h', hkeys]

theorem foldl_planetStep_lookup_other (E : Ephemeris) (pids : List Nat) :
    ∀ (st : List (PyStr × Option NakshatraInfo)) (k : PyStr),
      (∀ p ∈ pids, planetKey p ≠ k) →
      pyLookup (pids.foldl (planetStep E) st) k = pyLookup st k := by
  induction pids with
  | nil => intro st k _; rfl
  | cons q rest ih =>
    intro st k h
    rw [List.foldl_cons, ih _ k (fun p hp => h p (List.mem_cons_of_mem _ hp))]
    unfold planetStep
    cases planetResult E q with
    | error e => rfl
    | ok info =>
      rw [pyLookup_pyDictInsert, if_neg (h q (List.mem_cons_self _ _))]

theorem foldl_planetStep_lookup_hit (E : Ephemeris) (pids : List Nat) :
    ∀ (st : List (PyStr × Option NakshatraInfo)) (p : Nat), p ∈ pids →
      (pids.map planetKey).Nodup →
      pyLookup (pids.foldl (planetStep E) st) (planetKey p) =
        (match planetResult E p with
         | .ok i => some (some i)
         | .error _ => pyLookup st (planetKey p)) := by
  induction pids with
  | nil => intro st p hp _; cases hp
  | cons q rest ih =>
    intro st p hp hnd
    rw [List.map_cons, List.nodup_cons] at hnd
    rw [List.foldl_cons]
    by_cases hkey : planetKey p = planetKey q
    · have hpr : ∀ r ∈ rest, planetKey r ≠ planetKey p := by
        intro r hr he
        exact hnd.1 (hkey ▸ he ▸ List.mem_map_of_mem planetKey hr)
      rw [foldl_planetStep_lookup_other E rest _ _ hpr]
      unfold planetStep
      have hpq : p = q ∨ p ∈ rest := List.mem_cons.mp hp
      rcases hpq with rfl | hmem
      · cases hres : planetResult E p with
        | error e => rfl
        | ok info => rw [pyLookup_pyDictInsert, if_pos rfl]
      · exact absurd (hkey ▸ List.mem_map_of_mem planetKey hmem) hnd.1
    · have hmem : p ∈ rest := by
        rcases List.mem_cons.mp hp with rfl | hmem
        · exact absurd rfl hkey
        · exact hmem
      rw [ih (planetStep E st q) p hmem hnd.2]
      have hstep : pyLookup (planetStep E st q) (planetKey p) =
          pyLookup st (planetKey p) := by
        unfold planetStep
        cases planetResult E q with
        | error e => rfl
        | ok info =>
          rw [pyLookup_pyDictInsert, if_neg (fun h => hkey h.symm)]
      rw [hstep]

theorem ascendantStep_nakshatras_keys (E : Ephemeris) (st : Enrichment)
    (h : lagnaKey ∈ st.nakshatras.map Prod.fst) :
    (ascendantStep E st).nakshatras.map Prod.fst =
      st.nakshatras.map Prod.fst := by
  unfold ascendantStep
  cases ascStage1 E with
  | error e => rfl
  | ok s1 =>
    show (ascendantStep2 E s1
      { st with ascendant_lord := some s1.1 }).nakshatras.map Prod.fst =
      st.nakshatras.map Prod.fst
    unfold ascendantStep2
    cases ascStage2 E s1.2.1 s1.2.2 with
    | error e => rfl
    | ok info => exact keys_pyDictInsert_of_mem _ _ _ h

theorem ascendantStep_lookup_other (E : Ephemeris) (st : Enrichment)
    (k : PyStr) (hk : k ≠ lagnaKey) :
    pyLookup (ascendantStep E st).nakshatras k = pyLookup st.nakshatras k := by
  unfold ascendantStep
  cases ascStage1 E with
  | error e => rfl
  | ok s1 =>
    show pyLookup (ascendantStep2 E s1
      { st with ascendant_lord := some s1.1 }).nakshatras k =
      pyLookup st.nakshatras k
    unfold ascendantStep2
    cases ascStage2 E s1.2.1 s1.2.2 with
    | error e => rfl
    | ok info =>
      show pyLookup (pyDictInsert st.nakshatras lagnaKey (some info)) k = _
      rw [pyLookup_pyDictInsert, if_neg (fun h => hk h.symm)]

theorem ascendantStep_lagna (E : Ephemeris) (st : Enrichment)
    (h : pyLookup st.nakshatras lagnaKey = some st.ascendant_nakshatra) :
    pyLookup (ascendantStep E st).nakshatras lagnaKey =
      some (ascendantStep E st).ascendant_nakshatra := by
  unfold ascendantStep
  cases ascStage1 E with
  | error e => exact h
  | ok s1 =>
    show pyLookup (ascendantStep2 E s1
      { st with ascendant_lord := some s1.1 }).nakshatras lagnaKey =
      some (ascendantStep2 E s1
        { st with ascendant_lord := some s1.1 }).ascendant_nakshatra
    unfold ascendantStep2
    cases ascStage2 E s1.2.1 s1.2.2 with
    | error e => exact h
    | ok info =>
      show pyLookup (pyDictInsert st.nakshatras lagnaKey (some info)) lagnaKey =
        some (some info)
      rw [pyLookup_pyDictInsert, if_pos rfl]

theorem ascendantStep_of_some (E : Ephemeris) (li : PyStr × NakshatraInfo)
    (hasc : ascendantResult E = some li) (st : Enrichment) :
    ascendantStep E st =
      ⟨some li.1, some li.2,
       pyDictInsert st.nakshatras lagnaKey (some li.2)⟩ := by
  unfold ascendantResult at hasc
  unfold ascendantStep
  cases h1 : ascStage1 E with
  | error e =>
    rw [h1] at hasc
    exact Option.noConfusion hasc
  | ok s1 =>
    rw [h1] at hasc
    have hasc2 : ascendantResult2 E s1 = some li := hasc
    unfold ascendantResult2 at hasc2
    show ascendantStep2 E s1 { st with ascendant_lord := some s1.1 } = _
    unfold ascendantStep2
    cases h2 : ascStage2 E s1.2.1 s1.2.2 with
    | error e =>
      rw [h2] at hasc2
      exact Option.noConfusion hasc2
    | ok info =>
      rw [h2] at hasc2
      have hli : (s1.1, info) = li := Option.some.inj hasc2
      subst hli
      rfl

theorem enrich_of_ctx_error (E : Ephemeris)
    (h : E.set_language = .error ()) :
    enrich E = ⟨none, none, initNakshatras⟩ := by
  unfold enrich
  rw [h]

theorem enrich_of_ctx_ok (E : Ephemeris) (h : E.set_language = .ok ()) :
    enrich E =
      { ascendantStep E ⟨none, none, initNakshatras⟩ with
        nakshatras := planet_list.foldl (planetStep E)
          (ascendantStep E ⟨none, none, initNakshatras⟩).nakshatras } := by
  unfold enrich
  rw [h]

/-- C4: if the per-request enrichment context fails to initialize
(`utils.set_language` raises), the response is still the success response
whose base fields come from `format_response`, with `ascendant_lord` and
`ascendant_nakshatra` absent and every entry of the ten-key `nakshatras`
mapping absent; `get_horoscope` is total here, so the failure never
reaches the caller as an error. -/
theorem get_horoscope_context_failure (factors : List Nat)
    (raw : RawHoroscope) (E : Ephemeris) (h : E.set_language = .error ()) :
    get_horoscope factors raw E =
      ⟨"success".toList,
       ⟨normalizePlacements raw.placements, formatCharts factors raw.charts,
        raw.house_indices, none, none, initNakshatras⟩⟩ ∧
    (initNakshatras.all fun kv => kv.2.isNone) = true ∧
    initNakshatras.map Prod.fst =
      ["Raasi-Sun".toList, "Raasi-Moon".toList, "Raasi-Mars".toList,
       "Raasi-Mercury".toList, "Raasi-Jupiter".toList, "Raasi-Venus".toList,
       "Raasi-Saturn".toList, "Raasi-Rahu".toList, "Raasi-Ketu".toList,
       "Raasi-Lagna".toList] := by
  refine ⟨?_, by decide, by decide⟩
  unfold get_horoscope
  rw [enrich_of_ctx_error E h]
  rfl

/-- An oracle in which every external call raises: used to instantiate the
total-context-failure theorem at a concrete input. -/
def failEphemeris : Ephemeris where
  set_language := .error ()
  ascendant := .error ()
  house_owners := fun _ => .error ()
  PLANET_NAMES := fun _ => .error ()
  NAKSHATRA_LIST := fun _ => .error ()
  nakshathra_lord := fun _ => .error ()
  sidereal_longitude := fun _ => .error ()
  nakshatra_pada := fun _ => .error ()

theorem get_horoscope_context_failure_witness :
    get_horoscope [] ⟨[], [], []⟩ failEphemeris =
      ⟨"success".toList, ⟨[], [], [], none, none, initNakshatras⟩⟩ :=
  (get_horoscope_context_failure [] ⟨[], [], []⟩ failEphemeris rfl).1

/-- C6: in every response the `nakshatras` mapping has exactly one key per
tracked body (`"Raasi-<Name>"` for the nine classical bodies) plus the
ascendant key `"Raasi-Lagna"`, in that insertion order; each value is an
`Option NakshatraInfo`, i.e. either absent or a record with all three
fields (partial records are unrepresentable because the code always builds
the record with all three fields at once). -/
theorem nakshatras_keys (factors : List Nat) (raw : RawHoroscope)
    (E : Ephemeris) :
    (get_horoscope factors raw E).data.nakshatras.map Prod.fst =
      ["Raasi-Sun".toList, "Raasi-Moon".toList, "Raasi-Mars".toList,
       "Raasi-Mercury".toList, "Raasi-Jupiter".toList, "Raasi-Venus".toList,
       "Raasi-Saturn".toList, "Raasi-Rahu".toList, "Raasi-Ketu".toList,
       "Raasi-Lagna".toList] := by
  show (enrich E).nakshatras.map Prod.fst = _
  cases hctx : E.set_language with
  | error e =>
    cases e
    rw [enrich_of_ctx_error E hctx]
    decide
  | ok u =>
    cases u
    rw [enrich_of_ctx_ok E hctx]
    show (planet_list.foldl (planetStep E)
      (ascendantStep E ⟨none, none, initNakshatras⟩).nakshatras).map
        Prod.fst = _
    have hkeys := ascendantStep_nakshatras_keys E ⟨none, none, initNakshatras⟩
      (by decide)
    have hmem : ∀ p ∈ planet_list, planetKey p ∈
        ((ascendantStep E ⟨none, none, initNakshatras⟩).nakshatras).map
          Prod.fst := by
      intro p hp
      rw [hkeys]
      have hall : ∀ q ∈ planet_list,
          planetKey q ∈ initNakshatras.map Prod.fst := by decide
      exact hall p hp
    rw [foldl_planetStep_keys E planet_list _ hmem, hkeys]
    decide

/-- C10: the `ascendant_nakshatra` field and the `"Raasi-Lagna"` entry of
`nakshatras` are always equal: the code assigns both from the same record
in the same non-raising stretch of the ascendant block, the planet loop
never writes the ascendant key, and on any failure both stay `None`. -/
theorem lagna_consistent (factors : List Nat) (raw : RawHoroscope)
    (E : Ephemeris) :
    pyLookup (get_horoscope factors raw E).data.nakshatras lagnaKey =
      some ((get_horoscope factors raw E).data.ascendant_nakshatra) := by
  show pyLookup (enrich E).nakshatras lagnaKey =
    some (enrich E).ascendant_nakshatra
  cases hctx : E.set_language with
  | error e =>
    cases e
    rw [enrich_of_ctx_error E hctx]
    decide
  | ok u =>
    cases u
    rw [enrich_of_ctx_ok E hctx]
    show pyLookup (planet_list.foldl (planetStep E)
        (ascendantStep E ⟨none, none, initNakshatras⟩).nakshatras) lagnaKey =
      some (ascendantStep E ⟨none, none, initNakshatras⟩).ascendant_nakshatra
    rw [foldl_planetStep_lookup_other E planet_list _ _ (by decide)]
    exact ascendantStep_lagna E ⟨none, none, initNakshatras⟩ (by decide)

/-- C5: if the context initializes, the ascendant computation succeeds
fully, and exactly one tracked body's computation raises, then only that
body's `nakshatras` value is absent; every other body's value and the
ascendant entry are present and fully populated, and the ascendant fields
are set — no single body's failure aborts the response. -/
theorem get_horoscope_single_failure (factors : List Nat)
    (raw : RawHoroscope) (E : Ephemeris) (p : Nat)
    (li : PyStr × NakshatraInfo)
    (hctx : E.set_language = .ok ())
    (hasc : ascendantResult E = some li)
    (hp : p ∈ planet_list)
    (hfail : planetResult E p = .error ())
    (hok : ∀ q ∈ planet_list, q ≠ p → planetResult E q ≠ .error ()) :
    pyLookup (get_horoscope factors raw E).data.nakshatras (planetKey p) =
      some none ∧
    (∀ q ∈ planet_list, q ≠ p → ∃ i, planetResult E q = .ok i ∧
      pyLookup (get_horoscope factors raw E).data.nakshatras (planetKey q) =
        some (some i)) ∧
    pyLookup (get_horoscope factors raw E).data.nakshatras lagnaKey =
      some (some li.2) ∧
    (get_horoscope factors raw E).data.ascendant_nakshatra = some li.2 ∧
    (get_horoscope factors raw E).data.ascendant_lord = some li.1 := by
  have hstep := ascendantStep_of_some E li hasc ⟨none, none, initNakshatras⟩
  have hdata_nak : (get_horoscope factors raw E).data.nakshatras =
      planet_list.foldl (planetStep E)
        (pyDictInsert initNakshatras lagnaKey (some li.2)) := by
    show (enrich E).nakshatras = _
    rw [enrich_of_ctx_ok E hctx]
    show planet_list.foldl (planetStep E)
      (ascendantStep E ⟨none, none, initNakshatras⟩).nakshatras = _
    rw [hstep]
  have hnd : (planet_list.map planetKey).Nodup := by decide
  have hlag_ne : ∀ q ∈ planet_list, planetKey q ≠ lagnaKey := by decide
  have hinit : ∀ q ∈ planet_list,
      pyLookup initNakshatras (planetKey q) = some none := by decide
  refine ⟨?_, ?_, ?_, ?_, ?_⟩
  · rw [hdata_nak, foldl_planetStep_lookup_hit E planet_list _ p hp hnd,
      hfail]
    show pyLookup (pyDictInsert initNakshatras lagnaKey (some li.2))
      (planetKey p) = some none
    rw [pyLookup_pyDictInsert, if_neg (fun h => hlag_ne p hp h.symm)]
    exact hinit p hp
  · intro q hq hqp
    cases hres : planetResult E q with
    | error e =>
      cases e
      exact absurd hres (hok q hq hqp)
    | ok i =>
      refine ⟨i, rfl, ?_⟩
      rw [hdata_nak, foldl_planetStep_lookup_hit E planet_list _ q hq hnd,
        hres]
  · rw [hdata_nak, foldl_planetStep_lookup_other E planet_list _ _ hlag_ne,
      pyLookup_pyDictInsert, if_pos rfl]
  · show (enrich E).ascendant_nakshatra = some li.2
    rw [enrich_of_ctx_ok E hctx]
    show (ascendantStep E ⟨none, none, initNakshatras⟩).ascendant_nakshatra =
      some li.2
    rw [hstep]
  · show (enrich E).ascendant_lord = some li.1
    rw [enrich_of_ctx_ok E hctx]
    show (ascendantStep E ⟨none, none, initNakshatras⟩).ascendant_lord =
      some li.1
    rw [hstep]

/-- An oracle in which every external call succeeds except the sidereal
longitude of the Sun: instantiates the single-body-failure theorem. -/
def okEphemeris : Ephemeris where
  set_language := .ok ()
  ascendant := .ok (0, 0, 1, 1)
  house_owners := fun _ => .ok 0
  PLANET_NAMES := fun _ => .ok "Sun".toList
  NAKSHATRA_LIST := fun _ => .ok "Ashwini".toList
  nakshathra_lord := fun _ => .ok 0
  sidereal_longitude := fun q => if q = SUN then .error () else .ok 10
  nakshatra_pada := fun _ => .ok (1, 2)

theorem get_horoscope_single_failure_witness :
    pyLookup (get_horoscope [] ⟨[], [], []⟩ okEphemeris).data.nakshatras
      (planetKey SUN) = some none ∧
    pyLookup (get_horoscope [] ⟨[], [], []⟩ okEphemeris).data.nakshatras
      lagnaKey = some (some ⟨"Ashwini".toList, 1, "Sun".toList⟩) :=
  ⟨(get_horoscope_single_failure [] ⟨[], [], []⟩ okEphemeris SUN
      ("Sun".toList, ⟨"Ashwini".toList, 1, "Sun".toList⟩)
      rfl (by decide) (by decide) (by decide) (by decide)).1,
   (get_horoscope_single_failure [] ⟨[], [], []⟩ okEphemeris SUN
      ("Sun".toList, ⟨"Ashwini".toList, 1, "Sun".toList⟩)
      rfl (by decide) (by decide) (by decide) (by decide)).2.2.1⟩

theorem pyMod360_bounds (x : ℚ) : 0 ≤ pyMod360 x ∧ pyMod360 x < 360 := by
  have hfl : ((x / 360).floor : ℚ) = ((⌊x / 360⌋ : ℤ) : ℚ) := rfl
  have h1 : ((⌊x / 360⌋ : ℤ) : ℚ) ≤ x / 360 := Int.floor_le _
  have h2 : x / 360 < (⌊x / 360⌋ : ℤ) + 1 := Int.lt_floor_add_one _
  have h3 : (360 : ℚ) * (x / 360) = x := by field_simp
  have h4 : (360 : ℚ) * ((⌊x / 360⌋ : ℤ) : ℚ) ≤ 360 * (x / 360) :=
    mul_le_mul_of_nonneg_left h1 (by norm_num)
  have h5 : (360 : ℚ) * (x / 360) < 360 * (((⌊x / 360⌋ : ℤ) : ℚ) + 1) :=
    mul_lt_mul_of_pos_left h2 (by norm_num)
  unfold pyMod360
  rw [hfl]
  constructor <;> linarith

/-- C7: Ketu's longitude is derived as Rahu's sidereal longitude plus 180,
reduced with Python's float modulo (`x - 360 * floor (x / 360)`, which
lands in `[0, 360)` and differs from `L + 180` by an integer multiple of
360); and the ephemeris oracle is never queried at Ketu: changing the
oracle at Ketu alone cannot change Ketu's nakshatra result. -/
theorem ketu_longitude_spec (E : Ephemeris) (L : Rat)
    (h : E.sidereal_longitude RAHU = .ok L) :
    planetLongitude E KETU = .ok (pyMod360 (L + 180)) ∧
    0 ≤ pyMod360 (L + 180) ∧ pyMod360 (L + 180) < 360 ∧
    (∃ n : ℤ, (L + 180) - pyMod360 (L + 180) = 360 * (n : ℚ)) ∧
    (∀ f : Nat → Except Unit Rat,
      (∀ q, q ≠ KETU → f q = E.sidereal_longitude q) →
      planetResult { E with sidereal_longitude := f } KETU =
        planetResult E KETU) := by
  refine ⟨?_, (pyMod360_bounds _).1, (pyMod360_bounds _).2, ?_, ?_⟩
  · unfold planetLongitude
    rw [if_pos rfl, h]
  · refine ⟨((L + 180) / 360).floor, ?_⟩
    unfold pyMod360
    ring
  · intro f hf
    have hlong : planetLongitude { E with sidereal_longitude := f } KETU =
        planetLongitude E KETU := by
      unfold planetLongitude
      rw [if_pos rfl, if_pos rfl]
      show (match f RAHU with
        | Except.error e => (Except.error e : Except Unit Rat)
        | Except.ok rl => Except.ok (pyMod360 (rl + 180))) = _
      rw [hf RAHU (by decide)]
    unfold planetResult
    rw [hlong]

theorem ketu_longitude_spec_witness :
    planetLongitude okEphemeris KETU = .ok (pyMod360 ((10 : ℚ) + 180)) :=
  (ketu_longitude_spec okEphemeris 10 rfl).1
